import Mathlib

/-!
Shallow embedding of `src/Phonebook.c`: a fixed-bucket-count hash table with
separate chaining, storing name→phone contact records.

Modelling conventions:
* C strings are `List Nat` of byte values; the content of a C string is the
  bytes before the first NUL, so operations that read a C string stop at a
  zero byte (`cstr`).
* `unsigned long` is 64 bits (LP64), so the hash accumulator wraps mod `2^64`.
* `char` is signed (the usual x86-64 ABI): `int c = *name++` sign-extends
  bytes ≥ 128, and the subsequent addition into `unsigned long` converts the
  negative value mod `2^64` (`sextChar`).
* The heap chain of `ContactNode` is a `List ContactNode`; the `table` array
  of pointers is a `List (List ContactNode)`.
* `printf` reporting in `insertContact` is modelled by returning the strings
  that the `SUCCESS` message prints (`InsertResult`); `deleteContact` returns
  the table plus a `Bool` standing for the SUCCESS/ERROR branch taken.
-/

namespace Phonebook

/-- `#define TABLE_SIZE 100` -/
def TABLE_SIZE : Nat := 100

/-- `#define MAX_NAME_LEN 50` -/
def MAX_NAME_LEN : Nat := 50

/-- `#define MAX_PHONE_LEN 15` -/
def MAX_PHONE_LEN : Nat := 15

/-- Modulus of the 64-bit `unsigned long` accumulator. -/
def U64 : Nat := 2 ^ 64

/-- Content of a C string: the bytes before the first NUL. -/
def cstr (s : List Nat) : List Nat := s.takeWhile (fun b => b != 0)

/-- `strncpy(dst, src, n)` followed by `dst[n] = '\0'`: the stored content is
the first `n` bytes of the source's content. -/
def strncpyStr (s : List Nat) (n : Nat) : List Nat := (cstr s).take n

/-- `strcmp(a, b) == 0`: the two C strings have equal content. -/
def strcmpEq (a b : List Nat) : Bool := cstr a == cstr b

/-- The value `(unsigned long)c` where `int c` was read from a signed `char`:
bytes ≥ 128 are sign-extended to a negative `int`, which converts to
`unsigned long` modulo `2^64`. -/
def sextChar (b : Nat) : Nat := if b < 128 then b else b + (U64 - 256)

/-- The `while ((c = *name++)) hash = ((hash << 5) + hash) + c;` loop of
`hashFunction` (the shift-add is `hash * 33 + c`, as the source comment says),
in 64-bit unsigned arithmetic, stopping at the first NUL byte. -/
def hashLoop : Nat → List Nat → Nat
  | h, [] => h
  | h, c :: cs => if c = 0 then h else hashLoop ((h * 33 + sextChar c) % U64) cs

/-- `unsigned int hashFunction(const char *name, int tableSize)`:
djb2-style accumulation followed by `hash % tableSize`. -/
def hashFunction (name : List Nat) (tableSize : Nat) : Nat :=
  hashLoop 5381 name % tableSize

/-- `struct ContactNode` (the `next` pointer becomes list structure). -/
structure ContactNode where
  name : List Nat
  phone : List Nat
deriving Repr, DecidableEq

/-- `struct HashTable`. -/
structure HashTable where
  size : Nat
  table : List (List ContactNode)
deriving Repr, DecidableEq

/-- `createHashTable`: `calloc` yields `size` NULL bucket heads. -/
def createHashTable (size : Nat) : HashTable :=
  { size := size, table := List.replicate size [] }

/-- The outcome of `insertContact`: the updated table together with the name
and phone echoed by `printf("SUCCESS: Added '%s' with phone '%s'.\n", name,
phone)` — the function's own arguments, not the node's fields. -/
structure InsertResult where
  ht : HashTable
  reportedName : List Nat
  reportedPhone : List Nat
deriving Repr, DecidableEq

/-- `insertContact`: hash the (untruncated) argument, build the node with
`strncpy`-truncated copies, push it on the head of the chosen chain, report
the original arguments. Allocation is modelled as always succeeding. -/
def insertContact (ht : HashTable) (name phone : List Nat) : InsertResult :=
  let index := hashFunction name ht.size
  let newNode : ContactNode :=
    { name := strncpyStr name (MAX_NAME_LEN - 1)
      phone := strncpyStr phone (MAX_PHONE_LEN - 1) }
  { ht := { size := ht.size, table := ht.table.set index (newNode :: ht.table.getD index []) }
    reportedName := cstr name
    reportedPhone := cstr phone }

/-- The traversal loop of `searchContact`: first chain node whose stored name
compares `strcmp`-equal to the query. -/
def searchChain (name : List Nat) : List ContactNode → Option ContactNode
  | [] => none
  | temp :: rest =>
      if strcmpEq temp.name name then some temp else searchChain name rest

/-- `ContactNode* searchContact(HashTable *ht, const char *name)`. -/
def searchContact (ht : HashTable) (name : List Nat) : Option ContactNode :=
  searchChain name (ht.table.getD (hashFunction name ht.size) [])

/-- The unlink loop of `deleteContact` on one chain: remove the first
`strcmp`-matching node, returning the new chain and whether a node was freed
(the SUCCESS branch) or the chain was exhausted (the ERROR branch). -/
def deleteChain (name : List Nat) : List ContactNode → List ContactNode × Bool
  | [] => ([], false)
  | current :: rest =>
      if strcmpEq current.name name then (rest, true)
      else
        let r := deleteChain name rest
        (current :: r.1, r.2)

/-- `void deleteContact(HashTable *ht, const char *name)`; the `Bool` records
whether the `SUCCESS: Deleted` or the `ERROR: not found` message was printed. -/
def deleteContact (ht : HashTable) (name : List Nat) : HashTable × Bool :=
  let index := hashFunction name ht.size
  let r := deleteChain name (ht.table.getD index [])
  ({ size := ht.size, table := ht.table.set index r.1 }, r.2)

/-- `displayContacts`: the sequence of `(bucket index, entry)` pairs printed,
buckets in index order `0 .. size-1`, each chain head to tail. The store is
not an output: the traversal does not mutate it. -/
def displayContacts (ht : HashTable) : List (Nat × ContactNode) :=
  (List.range ht.size).flatMap fun i => (ht.table.getD i []).map fun nd => (i, nd)

/-- `displayContacts` prints `Phonebook is empty.` exactly when its `empty`
flag survives the loop, i.e. every bucket head is NULL. -/
def displayEmpty (ht : HashTable) : Bool :=
  (List.range ht.size).all fun i => ht.table.getD i [] == []

/-- Well-formedness every table created by `createHashTable` has and every
operation preserves: the pointer array has exactly `size` entries and the
bucket count is positive. -/
def WF (ht : HashTable) : Prop :=
  ht.table.length = ht.size ∧ 0 < ht.size

/-- The bucket-membership invariant claimed by the spec: every entry reachable
from bucket `i` hashes to `i` (applied to the entry's stored name). -/
def Inv (ht : HashTable) : Prop :=
  ∀ i < ht.table.length, ∀ nd ∈ ht.table.getD i [], hashFunction nd.name ht.size = i

instance : DecidablePred Inv := fun ht => by
  unfold Inv; infer_instance

/-- Total number of entries stored across all buckets. -/
def totalCount (ht : HashTable) : Nat :=
  (ht.table.map List.length).sum

/-- Fold a list of (name, phone) pairs into the table by repeated insertion. -/
def insertList (ht : HashTable) (ps : List (List Nat × List Nat)) : HashTable :=
  ps.foldl (fun h p => (insertContact h p.1 p.2).ht) ht

/-- Modelled from the spec (§4.1): the reference djb2 definition the spec
states — accumulator 5381; for each byte `c` of the name, in order, as a raw
unsigned 8-bit value, `acc = acc*33 + c` with unsigned wraparound mod `2^64`;
result is the accumulator mod the bucket count. -/
def djb2Spec (name : List Nat) (bucketCount : Nat) : Nat :=
  (name.foldl (fun acc c => (acc * 33 + c) % U64) 5381) % bucketCount

/-! ### Helper lemmas about the string model -/

theorem cstr_ne_zero {s : List Nat} {b : Nat} (h : b ∈ cstr s) : b ≠ 0 := by
  have := List.mem_takeWhile_imp h
  simpa using this

theorem cstr_of_ne_zero {s : List Nat} (h : ∀ b ∈ s, b ≠ 0) : cstr s = s := by
  induction s with
  | nil => rfl
  | cons a t ih =>
      have ha : (a != 0) = true := by simpa using h a (by simp)
      have ht : ∀ b ∈ t, b ≠ 0 := fun b hb => h b (by simp [hb])
      simp [cstr, List.takeWhile_cons, ha]
      simpa [cstr] using ih ht

theorem cstr_cstr (s : List Nat) : cstr (cstr s) = cstr s :=
  cstr_of_ne_zero fun _ hb => cstr_ne_zero hb

theorem cstr_take_cstr (s : List Nat) (n : Nat) :
    cstr ((cstr s).take n) = (cstr s).take n :=
  cstr_of_ne_zero fun _ hb => cstr_ne_zero (List.mem_of_mem_take hb)

theorem cstr_length_le (s : List Nat) : (cstr s).length ≤ s.length :=
  (List.takeWhile_sublist _).length_le

theorem strcmpEq_eq_true {a b : List Nat} : strcmpEq a b = true ↔ cstr a = cstr b := by
  simp [strcmpEq]

theorem strcmpEq_eq_false {a b : List Nat} : strcmpEq a b = false ↔ cstr a ≠ cstr b := by
  simp [strcmpEq]

theorem hashLoop_cstr (s : List Nat) : ∀ h : Nat, hashLoop h (cstr s) = hashLoop h s := by
  induction s with
  | nil => intro h; rfl
  | cons c cs ih =>
      intro h
      by_cases hc : c = 0
      · subst hc; simp [cstr, hashLoop]
      · have hb : (c != 0) = true := by simpa using hc
        simp [cstr, List.takeWhile_cons, hb, hashLoop, hc]
        exact ih _

theorem hashFunction_cstr (s : List Nat) (n : Nat) :
    hashFunction (cstr s) n = hashFunction s n := by
  simp [hashFunction, hashLoop_cstr]

theorem hashFunction_lt (s : List Nat) {n : Nat} (hn : 0 < n) : hashFunction s n < n :=
  Nat.mod_lt _ hn

/-! ### Helper lemmas about lists and the table array -/

theorem getD_set_self {α : Type} {l : List α} {i : Nat} (h : i < l.length) (x d : α) :
    (l.set i x).getD i d = x := by
  simp [List.getD_eq_getElem?_getD, List.getElem?_set_self h]

theorem getD_set_ne {α : Type} {l : List α} {i j : Nat} (h : i ≠ j) (x d : α) :
    (l.set i x).getD j d = l.getD j d := by
  simp [List.getD_eq_getElem?_getD, List.getElem?_set_ne h]

theorem set_getD_self {α : Type} {l : List α} {i : Nat} {d : α} (h : i < l.length) :
    l.set i (l.getD i d) = l := by
  induction l generalizing i with
  | nil => simp at h
  | cons a t ih =>
      cases i with
      | zero => rfl
      | succ i =>
          have hi : i < t.length := by simpa using h
          simpa [List.set, List.getD] using ih hi

theorem sum_map_length_set {α : Type} (l : List (List α)) {i : Nat}
    (h : i < l.length) (c : List α) :
    ((l.set i c).map List.length).sum + (l.getD i []).length =
      (l.map List.length).sum + c.length := by
  induction l generalizing i with
  | nil => simp at h
  | cons a t ih =>
      cases i with
      | zero => simp [List.getD]; omega
      | succ i =>
          have hi : i < t.length := by simpa using h
          have := ih hi
          simp [List.set, List.getD] at *
          omega

theorem map_getD_range {α : Type} (l : List α) (d : α) :
    (List.range l.length).map (fun i => l.getD i d) = l := by
  induction l with
  | nil => rfl
  | cons a t ih =>
      have : List.range (a :: t).length = 0 :: (List.range t.length).map Nat.succ := by
        simpa using List.range_succ_eq_map t.length
      rw [this]
      simp only [List.map_cons, List.map_map]
      refine congrArg₂ _ rfl ?_
      have hcomp : ((fun i => (a :: t).getD i d) ∘ Nat.succ) = fun i => t.getD i d := by
        funext i
        simp [List.getD_cons_succ]
      rw [hcomp, ih]

theorem flatMap_range_single {β : Type} (f : Nat → List β) {j n : Nat} (hj : j < n) :
    ((List.range n).flatMap fun i => if i = j then f i else []) = f j := by
  induction n with
  | zero => omega
  | succ n ih =>
      rw [List.range_succ, List.flatMap_append]
      by_cases h : j = n
      · subst h
        have : ((List.range j).flatMap fun i => if i = j then f i else []) = [] := by
          rw [List.flatMap_eq_nil_iff]
          intro i hi
          have : i ≠ j := Nat.ne_of_lt (List.mem_range.mp hi)
          simp [this]
        simp [this]
      · have hj' : j < n := by omega
        have hn : n ≠ j := fun hc => h hc.symm
        have h2 : ([n].flatMap fun i => if i = j then f i else []) = [] := by
          simp [hn]
        rw [h2, List.append_nil, ih hj']

/-! ### Helper lemmas about the chain operations -/

theorem searchChain_none {name : List Nat} {chain : List ContactNode}
    (h : ∀ nd ∈ chain, strcmpEq nd.name name = false) : searchChain name chain = none := by
  induction chain with
  | nil => rfl
  | cons a t ih =>
      have ha := h a (by simp)
      simp [searchChain, ha]
      exact ih fun nd hnd => h nd (by simp [hnd])

theorem deleteChain_not_found {name : List Nat} {chain : List ContactNode}
    (h : ∀ nd ∈ chain, strcmpEq nd.name name = false) :
    deleteChain name chain = (chain, false) := by
  induction chain with
  | nil => rfl
  | cons a t ih =>
      have ha := h a (by simp)
      simp [deleteChain, ha, ih fun nd hnd => h nd (by simp [hnd])]

theorem deleteChain_first_match {name : List Nat} (pre post : List ContactNode)
    (m : ContactNode) (hpre : ∀ nd ∈ pre, strcmpEq nd.name name = false)
    (hm : strcmpEq m.name name = true) :
    deleteChain name (pre ++ m :: post) = (pre ++ post, true) := by
  induction pre with
  | nil => simp [deleteChain, hm]
  | cons a t ih =>
      have ha := hpre a (by simp)
      have := ih fun nd hnd => hpre nd (by simp [hnd])
      simp [deleteChain, ha, this]

theorem mem_deleteChain {name : List Nat} {chain : List ContactNode} {nd : ContactNode}
    (h : nd ∈ (deleteChain name chain).1) : nd ∈ chain := by
  induction chain with
  | nil => simp [deleteChain] at h
  | cons a t ih =>
      by_cases ha : strcmpEq a.name name = true
      · simp [deleteChain, ha] at h
        simp [h]
      · simp [deleteChain, ha] at h
        rcases h with h | h
        · simp [h]
        · simp [ih h]

/-! ### Preservation of well-formedness and entry counts -/

theorem WF_createHashTable {n : Nat} (hn : 0 < n) : WF (createHashTable n) := by
  constructor
  · simp [createHashTable]
  · exact hn

theorem WF_insertContact {ht : HashTable} (hwf : WF ht) (name phone : List Nat) :
    WF (insertContact ht name phone).ht := by
  obtain ⟨hlen, hpos⟩ := hwf
  exact ⟨by simpa [insertContact] using hlen, by simpa [insertContact] using hpos⟩

theorem WF_deleteContact {ht : HashTable} (hwf : WF ht) (name : List Nat) :
    WF (deleteContact ht name).1 := by
  obtain ⟨hlen, hpos⟩ := hwf
  exact ⟨by simpa [deleteContact] using hlen, by simpa [deleteContact] using hpos⟩

theorem totalCount_insertContact {ht : HashTable} (hwf : WF ht) (name phone : List Nat) :
    totalCount (insertContact ht name phone).ht = totalCount ht + 1 := by
  obtain ⟨hlen, hpos⟩ := hwf
  have hidx : hashFunction name ht.size < ht.table.length := by
    rw [hlen]; exact hashFunction_lt name hpos
  have := sum_map_length_set ht.table hidx
    ({ name := strncpyStr name (MAX_NAME_LEN - 1)
       phone := strncpyStr phone (MAX_PHONE_LEN - 1) } ::
      ht.table.getD (hashFunction name ht.size) [])
  simp only [List.length_cons] at this
  simp only [insertContact, totalCount]
  omega

theorem totalCount_createHashTable (n : Nat) : totalCount (createHashTable n) = 0 := by
  simp [totalCount, createHashTable, List.map_replicate, List.sum_replicate]

theorem WF_insertList {ht : HashTable} (hwf : WF ht) (ps : List (List Nat × List Nat)) :
    WF (insertList ht ps) := by
  induction ps generalizing ht with
  | nil => exact hwf
  | cons p t ih => exact ih (WF_insertContact hwf p.1 p.2)

theorem totalCount_insertList {ht : HashTable} (hwf : WF ht)
    (ps : List (List Nat × List Nat)) :
    totalCount (insertList ht ps) = totalCount ht + ps.length := by
  induction ps generalizing ht with
  | nil => simp [insertList]
  | cons p t ih =>
      have h1 := ih (WF_insertContact hwf p.1 p.2)
      have h2 := totalCount_insertContact hwf p.1 p.2
      simp only [insertList, List.foldl_cons, List.length_cons] at *
      omega

/-! ### Display traversal lemmas -/

theorem length_displayContacts {ht : HashTable} (hwf : WF ht) :
    (displayContacts ht).length = totalCount ht := by
  obtain ⟨hlen, _⟩ := hwf
  rw [displayContacts, List.length_flatMap, totalCount]
  have : (List.range ht.size).map
      (List.length ∘ fun i => (ht.table.getD i []).map fun nd => (i, nd)) =
      (List.range ht.size).map (fun i => (ht.table.getD i []).length) := by
    simp [Function.comp]
  rw [this, ← hlen]
  conv_rhs => rw [← map_getD_range ht.table [], List.map_map]
  rfl

theorem filter_displayContacts {ht : HashTable} (hwf : WF ht) (j : Nat) :
    (((displayContacts ht).filter fun p => p.1 == j).map Prod.snd) = ht.table.getD j [] := by
  obtain ⟨hlen, _⟩ := hwf
  rw [displayContacts, List.filter_flatMap]
  have hfun : (fun i => ((ht.table.getD i []).map fun nd => (i, nd)).filter fun p => p.1 == j)
      = fun i => if i = j then (ht.table.getD i []).map fun nd => (i, nd) else [] := by
    funext i
    rw [List.filter_map]
    have hcomp : ((fun p : Nat × ContactNode => p.1 == j) ∘ fun nd => (i, nd))
        = fun _ => (i == j) := rfl
    rw [hcomp]
    by_cases hij : i = j
    · subst hij
      simp
    · simp [hij]
  rw [hfun]
  by_cases hj : j < ht.size
  · rw [flatMap_range_single _ hj]
    simp
  · have hflat : ((List.range ht.size).flatMap
        fun i => if i = j then (ht.table.getD i []).map (fun nd => (i, nd)) else []) = [] := by
      rw [List.flatMap_eq_nil_iff]
      intro i hi
      have hne : i ≠ j := by
        have := List.mem_range.mp hi
        omega
      simp [hne]
    rw [hflat]
    have h2 : ht.table.getD j [] = [] :=
      List.getD_eq_default _ _ (by rw [hlen]; omega)
    rw [List.getD_eq_getElem?_getD] at h2
    simp [h2]

/-- The accumulator loop coincides with the spec's raw-byte fold as long as
every byte is a nonzero ASCII value (below 128): then there is no early NUL
stop and no sign extension. -/
theorem hashLoop_eq_foldl {name : List Nat} (h : ∀ b ∈ name, 0 < b ∧ b < 128) :
    ∀ acc : Nat, hashLoop acc name = name.foldl (fun acc c => (acc * 33 + c) % U64) acc := by
  induction name with
  | nil => intro acc; rfl
  | cons c cs ih =>
      intro acc
      obtain ⟨hc0, hc128⟩ := h c (by simp)
      have hcs : ∀ b ∈ cs, 0 < b ∧ b < 128 := fun b hb => h b (by simp [hb])
      have hs : sextChar c = c := by simp [sextChar, hc128]
      simp [hashLoop, hc0.ne', hs, ih hcs]

/-! ### Claim theorems -/

set_option maxRecDepth 8000 in
/-- C1 fails as stated: with the 50-byte name `aaaa…a` (longer than the
49-byte limit) and any phone, insert followed by search with that same name
returns not-found rather than an entry, because the stored name was truncated
while the search compares the untruncated query. -/
theorem C1_counterexample :
    searchContact (insertContact (createHashTable 100) (List.replicate 50 97) [49]).ht
      (List.replicate 50 97) = none := by decide

/-- C1 (amended): for every well-formed store and every name and phone whose
C-string contents fit the configured maxima (49 and 14 bytes), insert followed
by search with the same name returns the freshly stored entry, whose phone
equals the inserted phone. -/
theorem C1_insert_then_search (ht : HashTable) (name phone : List Nat) (hwf : WF ht)
    (hname : (cstr name).length ≤ MAX_NAME_LEN - 1)
    (hphone : (cstr phone).length ≤ MAX_PHONE_LEN - 1) :
    searchContact (insertContact ht name phone).ht name =
      some { name := cstr name, phone := cstr phone } := by
  obtain ⟨hlen, hpos⟩ := hwf
  have hidx : hashFunction name ht.size < ht.table.length := by
    rw [hlen]; exact hashFunction_lt name hpos
  have hnm : strncpyStr name (MAX_NAME_LEN - 1) = cstr name :=
    List.take_of_length_le hname
  have hph : strncpyStr phone (MAX_PHONE_LEN - 1) = cstr phone :=
    List.take_of_length_le hphone
  have hmatch : strcmpEq (cstr name) name = true :=
    strcmpEq_eq_true.mpr (cstr_cstr name)
  simp only [searchContact, insertContact]
  rw [getD_set_self hidx]
  simp [searchChain, hnm, hph, hmatch]

set_option maxRecDepth 8000 in
/-- C1 witness: inserting name `"a"` with phone `"1"` into a fresh 100-bucket
store and searching `"a"` yields that phone. -/
theorem C1_witness :
    searchContact (insertContact (createHashTable 100) [97] [49]).ht [97] =
      some { name := cstr [97], phone := cstr [49] } :=
  C1_insert_then_search (createHashTable 100) [97] [49]
    ⟨by decide, by decide⟩ (by decide) (by decide)

set_option maxRecDepth 8000 in
/-- C2 fails as stated: with the 50-byte name `aaaa…a` and two different
phones, the search after the two inserts already returns not-found instead of
the most recently inserted phone, because of query truncation asymmetry. -/
theorem C2_counterexample :
    searchContact (insertContact (insertContact (createHashTable 100)
        (List.replicate 50 97) [49]).ht (List.replicate 50 97) [50]).ht
      (List.replicate 50 97) = none := by decide

/-- C2 (amended): for every well-formed store and every name and two distinct
phones within the configured maxima, inserting the name twice places both
entries at the head of one chain: search returns the most recently inserted
phone, one delete succeeds, and a second search returns the older phone. -/
theorem C2_duplicate_chain_order (ht : HashTable) (name p1 p2 : List Nat) (hwf : WF ht)
    (hname : (cstr name).length ≤ MAX_NAME_LEN - 1)
    (hp1 : (cstr p1).length ≤ MAX_PHONE_LEN - 1)
    (hp2 : (cstr p2).length ≤ MAX_PHONE_LEN - 1)
    (_hne : cstr p1 ≠ cstr p2) :
    searchContact (insertContact (insertContact ht name p1).ht name p2).ht name =
      some { name := cstr name, phone := cstr p2 } ∧
    (deleteContact (insertContact (insertContact ht name p1).ht name p2).ht name).2 = true ∧
    searchContact
        (deleteContact (insertContact (insertContact ht name p1).ht name p2).ht name).1 name =
      some { name := cstr name, phone := cstr p1 } := by
  obtain ⟨hlen, hpos⟩ := hwf
  have hidx : hashFunction name ht.size < ht.table.length := by
    rw [hlen]; exact hashFunction_lt name hpos
  have hnm : strncpyStr name (MAX_NAME_LEN - 1) = cstr name :=
    List.take_of_length_le hname
  have hph1 : strncpyStr p1 (MAX_PHONE_LEN - 1) = cstr p1 :=
    List.take_of_length_le hp1
  have hph2 : strncpyStr p2 (MAX_PHONE_LEN - 1) = cstr p2 :=
    List.take_of_length_le hp2
  have hmatch : strcmpEq (cstr name) name = true :=
    strcmpEq_eq_true.mpr (cstr_cstr name)
  have htab2 : (insertContact (insertContact ht name p1).ht name p2).ht.table
      = ht.table.set (hashFunction name ht.size)
          ({ name := cstr name, phone := cstr p2 } ::
            { name := cstr name, phone := cstr p1 } ::
              ht.table.getD (hashFunction name ht.size) []) := by
    simp only [insertContact]
    rw [getD_set_self hidx, List.set_set, hnm, hph1, hph2]
  have hsize2 : (insertContact (insertContact ht name p1).ht name p2).ht.size = ht.size := rfl
  have hidx2 : hashFunction name ht.size <
      (insertContact (insertContact ht name p1).ht name p2).ht.table.length := by
    rw [htab2, List.length_set]; exact hidx
  refine ⟨?_, ?_, ?_⟩
  · simp only [searchContact, hsize2]
    rw [htab2, getD_set_self hidx]
    simp [searchChain, hmatch]
  · simp only [deleteContact, hsize2]
    rw [htab2, getD_set_self hidx]
    simp [deleteChain, hmatch]
  · simp only [deleteContact, searchContact, hsize2]
    rw [htab2, getD_set_self hidx, List.set_set]
    have : strcmpEq ({ name := cstr name, phone := cstr p2 } : ContactNode).name name
        = true := hmatch
    simp only [deleteChain, this, if_pos rfl]
    rw [getD_set_self hidx]
    simp [searchChain, hmatch]

set_option maxRecDepth 8000 in
/-- C2 witness: name `"a"`, phones `"1"` then `"2"` on a fresh 100-bucket
store — search sees `"2"`, delete succeeds, search then sees `"1"`. -/
theorem C2_witness :
    searchContact (insertContact (insertContact (createHashTable 100) [97] [49]).ht
        [97] [50]).ht [97] = some { name := cstr [97], phone := cstr [50] } ∧
    (deleteContact (insertContact (insertContact (createHashTable 100) [97] [49]).ht
        [97] [50]).ht [97]).2 = true ∧
    searchContact (deleteContact (insertContact (insertContact (createHashTable 100)
        [97] [49]).ht [97] [50]).ht [97]).1 [97] =
      some { name := cstr [97], phone := cstr [49] } :=
  C2_duplicate_chain_order (createHashTable 100) [97] [49] [50]
    ⟨by decide, by decide⟩ (by decide) (by decide) (by decide) (by decide)

set_option maxRecDepth 8000 in
/-- C3 fails as stated: after inserting the 50-byte name `aaaa…a` into a fresh
100-bucket store, the entry sits in the bucket chosen by hashing the original
name, but its stored (truncated) name hashes to a different bucket, so the
invariant is violated. -/
theorem C3_counterexample :
    ¬ Inv (insertContact (createHashTable 100) (List.replicate 50 97) [49]).ht := by
  decide

/-- C3 (amended): a fresh store satisfies the bucket invariant; delete always
preserves it; insert preserves it provided the inserted name's content is
within the 49-byte limit (so that the stored name still hashes to the chosen
bucket). -/
theorem C3_bucket_invariant (ht : HashTable) (name phone : List Nat) (n : Nat)
    (hwf : WF ht) (hinv : Inv ht) :
    Inv (createHashTable n) ∧
    ((cstr name).length ≤ MAX_NAME_LEN - 1 → Inv (insertContact ht name phone).ht) ∧
    Inv (deleteContact ht name).1 := by
  obtain ⟨hlen, hpos⟩ := hwf
  have hidx : hashFunction name ht.size < ht.table.length := by
    rw [hlen]; exact hashFunction_lt name hpos
  refine ⟨?_, ?_, ?_⟩
  · intro i _ nd hnd
    have : (List.replicate n ([] : List ContactNode)).getD i [] = [] := by
      rw [List.getD_eq_getElem?_getD, List.getElem?_replicate]
      by_cases hi : i < n <;> simp [hi]
    rw [createHashTable] at hnd
    simp only [this] at hnd
    simp at hnd
  · intro hname i hi nd hnd
    have hnm : strncpyStr name (MAX_NAME_LEN - 1) = cstr name :=
      List.take_of_length_le hname
    by_cases hij : hashFunction name ht.size = i
    · subst hij
      simp only [insertContact] at hnd
      rw [getD_set_self hidx] at hnd
      rcases List.mem_cons.mp hnd with h | h
      · subst h
        show hashFunction (strncpyStr name (MAX_NAME_LEN - 1)) ht.size = _
        rw [hnm, hashFunction_cstr]
      · exact hinv _ hidx nd h
    · simp only [insertContact] at hnd hi
      rw [getD_set_ne hij] at hnd
      rw [List.length_set] at hi
      exact hinv i hi nd hnd
  · by_cases hij' : True
    · intro i hi nd hnd
      by_cases hij : hashFunction name ht.size = i
      · subst hij
        simp only [deleteContact] at hnd
        rw [getD_set_self hidx] at hnd
        exact hinv _ hidx nd (mem_deleteChain hnd)
      · simp only [deleteContact] at hnd hi
        rw [getD_set_ne hij] at hnd
        rw [List.length_set] at hi
        exact hinv i hi nd hnd
    · exact absurd trivial hij'

set_option maxRecDepth 8000 in
/-- C3 witness: a fresh store of 3 buckets is invariant, and inserting and
deleting the single-byte name `"a"` on a fresh 100-bucket store keeps the
invariant. -/
theorem C3_witness :
    Inv (createHashTable 3) ∧
    ((cstr [97]).length ≤ MAX_NAME_LEN - 1 →
      Inv (insertContact (createHashTable 100) [97] [49]).ht) ∧
    Inv (deleteContact (createHashTable 100) [97]).1 :=
  C3_bucket_invariant (createHashTable 100) [97] [49] 3
    ⟨by decide, by decide⟩ (by decide)

/-- C4: deleting a name with no exactly matching entry in its bucket chain
(in particular, on an empty store) reports not-found and leaves the store
bit-for-bit unchanged. -/
theorem C4_delete_not_found (ht : HashTable) (name : List Nat) (hwf : WF ht)
    (habs : ∀ nd ∈ ht.table.getD (hashFunction name ht.size) [],
      strcmpEq nd.name name = false) :
    deleteContact ht name = (ht, false) := by
  obtain ⟨hlen, hpos⟩ := hwf
  have hidx : hashFunction name ht.size < ht.table.length := by
    rw [hlen]; exact hashFunction_lt name hpos
  have hd := deleteChain_not_found habs
  simp only [deleteContact, hd]
  rw [set_getD_self hidx]

set_option maxRecDepth 8000 in
/-- C4 witness: deleting `"a"` from a fresh 100-bucket store reports
not-found and returns the store unchanged. -/
theorem C4_witness :
    deleteContact (createHashTable 100) [97] = (createHashTable 100, false) :=
  C4_delete_not_found (createHashTable 100) [97] ⟨by decide, by decide⟩ (by decide)

/-- C5: when the bucket chain for the query splits as `pre ++ m :: post` with
`m` the first exactly matching entry, one delete call removes exactly `m`
(the chain becomes `pre ++ post`, so any later duplicates remain), the total
entry count drops by exactly one, and the number of matching entries drops by
exactly one — so `k` matching entries require `k` delete calls. -/
theorem C5_delete_first_match (ht : HashTable) (name : List Nat)
    (pre post : List ContactNode) (m : ContactNode) (hwf : WF ht)
    (hchain : ht.table.getD (hashFunction name ht.size) [] = pre ++ m :: post)
    (hpre : ∀ nd ∈ pre, strcmpEq nd.name name = false)
    (hm : strcmpEq m.name name = true) :
    deleteContact ht name =
      ({ size := ht.size
         table := ht.table.set (hashFunction name ht.size) (pre ++ post) }, true) ∧
    totalCount (deleteContact ht name).1 + 1 = totalCount ht ∧
    (pre ++ post).countP (fun nd => strcmpEq nd.name name) + 1 =
      (pre ++ m :: post).countP (fun nd => strcmpEq nd.name name) := by
  obtain ⟨hlen, hpos⟩ := hwf
  have hidx : hashFunction name ht.size < ht.table.length := by
    rw [hlen]; exact hashFunction_lt name hpos
  have hdel := deleteChain_first_match pre post m hpre hm
  have hres : deleteContact ht name =
      ({ size := ht.size
         table := ht.table.set (hashFunction name ht.size) (pre ++ post) }, true) := by
    simp only [deleteContact]
    rw [hchain, hdel]
  refine ⟨hres, ?_, ?_⟩
  · rw [hres]
    have hsum := sum_map_length_set ht.table hidx (pre ++ post)
    rw [hchain] at hsum
    simp only [List.length_append, List.length_cons] at hsum
    simp only [totalCount]
    omega
  · simp [List.countP_append, List.countP_cons, hm]
    omega

set_option maxRecDepth 8000 in
/-- C5 witness: with `"a"` inserted twice (phones `"1"` then `"2"`) into a
fresh 100-bucket store, one delete removes exactly the head duplicate, the
count drops from 2 to 1, and the older duplicate remains. -/
theorem C5_witness :
    deleteContact (insertContact (insertContact (createHashTable 100) [97] [49]).ht
        [97] [50]).ht [97] =
      ({ size := (insertContact (insertContact (createHashTable 100) [97] [49]).ht
            [97] [50]).ht.size
         table := (insertContact (insertContact (createHashTable 100) [97] [49]).ht
            [97] [50]).ht.table.set
            (hashFunction [97] (insertContact (insertContact (createHashTable 100)
              [97] [49]).ht [97] [50]).ht.size)
            ([] ++ [({ name := [97], phone := [49] } : ContactNode)]) }, true) ∧
    totalCount (deleteContact (insertContact (insertContact (createHashTable 100)
        [97] [49]).ht [97] [50]).ht [97]).1 + 1 =
      totalCount (insertContact (insertContact (createHashTable 100) [97] [49]).ht
        [97] [50]).ht ∧
    ([] ++ [({ name := [97], phone := [49] } : ContactNode)]).countP
        (fun nd : ContactNode => strcmpEq nd.name [97]) + 1 =
      ([] ++ ({ name := [97], phone := [50] } : ContactNode) ::
          [({ name := [97], phone := [49] } : ContactNode)]).countP
        (fun nd : ContactNode => strcmpEq nd.name [97]) :=
  C5_delete_first_match
    (insertContact (insertContact (createHashTable 100) [97] [49]).ht [97] [50]).ht
    [97] [] [({ name := [97], phone := [49] } : ContactNode)]
    { name := [97], phone := [50] }
    ⟨by decide, by decide⟩ (by decide) (by decide) (by decide)

/-- C6: the display traversal lists, for every bucket index `j`, exactly the
entries of chain `j` in chain order (buckets are visited in index order
`0..size-1`, chains head to tail), and after inserting `N` pairs into a fresh
store it yields exactly `N` entries; being a pure function of the store, it
does not mutate it. -/
theorem C6_display_all_entries (ht : HashTable) (hwf : WF ht) (j : Nat)
    (n : Nat) (hn : 0 < n) (ps : List (List Nat × List Nat)) :
    (((displayContacts ht).filter fun p => p.1 == j).map Prod.snd) = ht.table.getD j [] ∧
    (displayContacts (insertList (createHashTable n) ps)).length = ps.length := by
  refine ⟨filter_displayContacts hwf j, ?_⟩
  rw [length_displayContacts (WF_insertList (WF_createHashTable hn) ps),
    totalCount_insertList (WF_createHashTable hn) ps, totalCount_createHashTable,
    Nat.zero_add]

set_option maxRecDepth 8000 in
/-- C6 witness: after inserting `"a"` into a fresh 100-bucket store, bucket 70
of the traversal carries exactly that chain, and inserting 2 pairs into a
fresh 2-bucket store displays exactly 2 entries. -/
theorem C6_witness :
    (((displayContacts (insertContact (createHashTable 100) [97] [49]).ht).filter
        fun p => p.1 == 70).map Prod.snd) =
      (insertContact (createHashTable 100) [97] [49]).ht.table.getD 70 [] ∧
    (displayContacts (insertList (createHashTable 2)
        [([97], [49]), ([98], [50])])).length =
      ([([97], [49]), ([98], [50])] : List (List Nat × List Nat)).length :=
  C6_display_all_entries (insertContact (createHashTable 100) [97] [49]).ht
    ⟨by decide, by decide⟩ 70 2 (by decide) [([97], [49]), ([98], [50])]

/-- C7: the hash is deterministic (equal arguments give equal results,
trivially, since it is a pure function of its arguments) and for every
positive bucket count the returned index is strictly below the bucket
count. -/
theorem C7_hash_deterministic_and_in_range (s : List Nat) (n : Nat) (hn : 0 < n) :
    hashFunction s n = hashFunction s n ∧ hashFunction s n < n :=
  ⟨rfl, hashFunction_lt s hn⟩

/-- C7 witness: the hash of `"alice"` into 100 buckets equals itself and is
below 100. -/
theorem C7_witness :
    hashFunction [97, 108, 105, 99, 101] 100 = hashFunction [97, 108, 105, 99, 101] 100 ∧
    hashFunction [97, 108, 105, 99, 101] 100 < 100 :=
  C7_hash_deterministic_and_in_range [97, 108, 105, 99, 101] 100 (by decide)

/-- C8 fails as stated: for the single byte 200 the implemented hash reads the
byte through a signed `char`, so it adds `200 - 256` (mod `2^64`) instead of
the raw value 200: with 100 buckets the code returns 17 while the spec's
reference djb2 returns 73. -/
theorem C8_counterexample : hashFunction [200] 100 ≠ djb2Spec [200] 100 := by decide

/-- C8 (amended): the implemented hash equals the reference djb2 definition
for every name whose bytes are nonzero and below 128 (ASCII): bytes ≥ 128 are
sign-extended through the signed `char` read (contributing `c - 256` mod
`2^64` instead of `c`), and a zero byte terminates the C string. -/
theorem C8_hash_matches_djb2_on_ascii (name : List Nat) (n : Nat)
    (hbytes : ∀ b ∈ name, 0 < b ∧ b < 128) :
    hashFunction name n = djb2Spec name n := by
  rw [hashFunction, djb2Spec, hashLoop_eq_foldl hbytes]

/-- C8 witness: on the ASCII name `"hi"` the implemented hash agrees with the
reference djb2 for 100 buckets. -/
theorem C8_witness : hashFunction [104, 105] 100 = djb2Spec [104, 105] 100 :=
  C8_hash_matches_djb2_on_ascii [104, 105] 100 (by decide)

set_option maxRecDepth 8000 in
/-- C9 fails as stated: for the 50-byte name `aaaa…a` the success message
echoes the original 50-byte argument, while the entry actually placed stores
the 49-byte truncated prefix — the reported name is not the stored name. -/
theorem C9_counterexample :
    (insertContact (createHashTable 100) (List.replicate 50 97) [49]).reportedName =
        List.replicate 50 97 ∧
    ((insertContact (createHashTable 100) (List.replicate 50 97)
        [49]).ht.table.getD 83 []).map ContactNode.name = [List.replicate 49 97] ∧
    List.replicate 50 97 ≠ List.replicate 49 97 :=
  ⟨by decide, by decide, by decide⟩

/-- C9 (amended): insert always succeeds, pushing onto the chosen chain a new
head entry holding the `strncpy`-truncated name and phone, but the success
report echoes the caller's original (untruncated) arguments, not the stored
strings. -/
theorem C9_insert_reports_arguments (ht : HashTable) (name phone : List Nat)
    (hwf : WF ht) :
    (insertContact ht name phone).reportedName = cstr name ∧
    (insertContact ht name phone).reportedPhone = cstr phone ∧
    (insertContact ht name phone).ht.table.getD (hashFunction name ht.size) [] =
      { name := strncpyStr name (MAX_NAME_LEN - 1)
        phone := strncpyStr phone (MAX_PHONE_LEN - 1) } ::
        ht.table.getD (hashFunction name ht.size) [] := by
  obtain ⟨hlen, hpos⟩ := hwf
  have hidx : hashFunction name ht.size < ht.table.length := by
    rw [hlen]; exact hashFunction_lt name hpos
  refine ⟨rfl, rfl, ?_⟩
  simp only [insertContact]
  exact getD_set_self hidx _ _

set_option maxRecDepth 8000 in
/-- C9 witness: inserting `"a"`/`"1"` into a fresh 100-bucket store reports
the arguments and stores the new entry at the head of its bucket. -/
theorem C9_witness :
    (insertContact (createHashTable 100) [97] [49]).reportedName = cstr [97] ∧
    (insertContact (createHashTable 100) [97] [49]).reportedPhone = cstr [49] ∧
    (insertContact (createHashTable 100) [97] [49]).ht.table.getD
        (hashFunction [97] (createHashTable 100).size) [] =
      { name := strncpyStr [97] (MAX_NAME_LEN - 1)
        phone := strncpyStr [49] (MAX_PHONE_LEN - 1) } ::
        (createHashTable 100).table.getD (hashFunction [97] (createHashTable 100).size) [] :=
  C9_insert_reports_arguments (createHashTable 100) [97] [49] ⟨by decide, by decide⟩

set_option maxRecDepth 8000 in
/-- C10 fails as stated in its second half: after inserting the 50-byte name
`aaaa…a` into a fresh 100-bucket store, searching the 49-byte truncated prefix
does NOT find the entry — the entry was filed under the bucket of the original
name (83) while the prefix hashes to bucket 46. -/
theorem C10_counterexample :
    searchContact (insertContact (createHashTable 100) (List.replicate 50 97) [49]).ht
      (List.replicate 49 97) = none := by decide

/-- C10 (amended): insert truncates the stored name to 49 bytes but computes
the bucket from the original name, and search compares the raw query; hence
for every name whose content exceeds 49 bytes (inserted into a store whose
entries all respect the 49-byte bound), a search with the same raw name
reports not-found, and a search with the 49-byte truncated prefix finds the
new entry exactly when the prefix happens to hash to the same bucket as the
original name. -/
theorem C10_truncation_asymmetry (ht : HashTable) (name phone : List Nat) (hwf : WF ht)
    (hbound : ∀ i < ht.table.length, ∀ nd ∈ ht.table.getD i [],
      nd.name.length ≤ MAX_NAME_LEN - 1)
    (hlong : MAX_NAME_LEN - 1 < (cstr name).length) :
    searchContact (insertContact ht name phone).ht name = none ∧
    (hashFunction ((cstr name).take (MAX_NAME_LEN - 1)) ht.size =
        hashFunction name ht.size →
      searchContact (insertContact ht name phone).ht
          ((cstr name).take (MAX_NAME_LEN - 1)) =
        some { name := (cstr name).take (MAX_NAME_LEN - 1)
               phone := strncpyStr phone (MAX_PHONE_LEN - 1) }) := by
  obtain ⟨hlen, hpos⟩ := hwf
  have hidx : hashFunction name ht.size < ht.table.length := by
    rw [hlen]; exact hashFunction_lt name hpos
  have htrunclen : ((cstr name).take (MAX_NAME_LEN - 1)).length = MAX_NAME_LEN - 1 := by
    rw [List.length_take]
    omega
  have hctrunc : cstr ((cstr name).take (MAX_NAME_LEN - 1)) =
      (cstr name).take (MAX_NAME_LEN - 1) :=
    cstr_take_cstr name _
  constructor
  · simp only [searchContact, insertContact]
    rw [getD_set_self hidx]
    apply searchChain_none
    intro nd hnd
    rcases List.mem_cons.mp hnd with h | h
    · subst h
      rw [strcmpEq_eq_false]
      show cstr ((cstr name).take (MAX_NAME_LEN - 1)) ≠ cstr name
      rw [hctrunc]
      intro hcontra
      have := congrArg List.length hcontra
      rw [htrunclen] at this
      omega
    · rw [strcmpEq_eq_false]
      intro hcontra
      have h1 : (cstr nd.name).length ≤ nd.name.length := cstr_length_le _
      have h2 := hbound _ hidx nd h
      have h3 := congrArg List.length hcontra
      omega
  · intro hsame
    have hm : strcmpEq ((cstr name).take (MAX_NAME_LEN - 1))
        ((cstr name).take (MAX_NAME_LEN - 1)) = true :=
      strcmpEq_eq_true.mpr rfl
    simp only [searchContact, insertContact]
    rw [hsame, getD_set_self hidx]
    simp [searchChain, strncpyStr, hm]

set_option maxRecDepth 8000 in
/-- C10 witness: the 50-byte name of 49 `a`s followed by byte 60 hashes to the
same bucket (46) as its 49-byte prefix; after inserting it into a fresh
100-bucket store, searching the raw name misses while searching the prefix
finds the truncated entry. -/
theorem C10_witness :
    searchContact (insertContact (createHashTable 100)
        (List.replicate 49 97 ++ [60]) [49]).ht (List.replicate 49 97 ++ [60]) = none ∧
    (hashFunction ((cstr (List.replicate 49 97 ++ [60])).take (MAX_NAME_LEN - 1))
        (createHashTable 100).size =
        hashFunction (List.replicate 49 97 ++ [60]) (createHashTable 100).size →
      searchContact (insertContact (createHashTable 100)
          (List.replicate 49 97 ++ [60]) [49]).ht
          ((cstr (List.replicate 49 97 ++ [60])).take (MAX_NAME_LEN - 1)) =
        some { name := (cstr (List.replicate 49 97 ++ [60])).take (MAX_NAME_LEN - 1)
               phone := strncpyStr [49] (MAX_PHONE_LEN - 1) }) :=
  C10_truncation_asymmetry (createHashTable 100) (List.replicate 49 97 ++ [60]) [49]
    ⟨by decide, by decide⟩ (by decide) (by decide)
